import Mathlib

/-!
Shallow embedding of the risk-aggregation core of `app.py` (a Streamlit stock
dashboard).  Numbers are modelled as rationals, the market-data provider
(`yfinance`) as a pure function from tickers to responses, and the Streamlit
progress bar as the list of fractions reported to it, in order.
-/

/-- One row of a broker table: columns 代號 (ticker), 股數 (shares),
平均成本 (average cost) and Beta (自訂) (user beta).  An empty user-beta cell
(pandas NaN) is `none`; a NaN or blank ticker cell is modelled as a
whitespace-only string, since line 136 treats the two identically. -/
structure PositionRecord where
  ticker : String
  shares : ℚ
  avgCost : ℚ
  userBeta : Option ℚ
deriving DecidableEq, Repr

/-- The fields of `yf.Ticker(t).info` that `fetch_risk_data` reads.  A numeric
field that is missing from the dict, or present with value `None`, is `none`
(lines 149 and 158-159 treat the two identically). -/
structure ProviderInfo where
  currentPrice : Option ℚ
  previousClose : Option ℚ
  beta : Option ℚ
  sector : Option String
deriving DecidableEq, Repr

/-- Result of `stock.history(period='1d')`: the Close column, oldest first. -/
structure HistData where
  closes : List ℚ
deriving DecidableEq, Repr

/-- Behaviour of the market-data provider for one ticker: either the external
calls of the `try` body succeed with this data, or some call raises (network
error, malformed response, ...), which the bare `except` of line 180 turns
into "no enriched row". -/
inductive ProviderResult where
  | ok : ProviderInfo → HistData → ProviderResult
  | err : ProviderResult
deriving DecidableEq, Repr

/-- Python `str.upper()`: uppercase every character (ASCII tickers). -/
def pyUpper (s : String) : String := ⟨s.data.map Char.toUpper⟩

/-- Python `str(ticker).strip() == ""` of line 136: the string strips to empty
iff every character is whitespace. -/
def isBlankStr (s : String) : Bool := s.data.all (fun c => c.isWhitespace)

/-- Python `a or b` on two optional numbers: both `None` and `0` are falsy,
and `a or b` returns `b` whenever `a` is falsy (so `0 or None` is `None` and
`None or 0` is `0`). -/
def pyOr (a b : Option ℚ) : Option ℚ :=
  match a with
  | some p => if p = 0 then b else some p
  | none => b

/-- Lines 149-152: `price = info.get('currentPrice') or info.get('previousClose')`;
then only `if price is None` is the one-day history consulted, taking
`hist['Close'].iloc[-1]` when the history is non-empty.  Note that a resolved
price of `0` (falsy but not `None`) does not reach the history fallback. -/
def resolvePrice (info : ProviderInfo) (hist : HistData) : Option ℚ :=
  match pyOr info.currentPrice info.previousClose with
  | none => hist.closes.getLast?
  | some p => some p

/-- Lines 154-160: the beta policy.  Returns the final beta and the source
note string, `"(自訂)"` for a user override and `"(系統)"` for the provider
value (`info.get('beta', 1.0)` with `None` replaced by `1.0`). -/
def finalBeta (userBeta : Option ℚ) (info : ProviderInfo) : ℚ × String :=
  match userBeta with
  | some b => if 0 < b then (b, "(自訂)") else (info.beta.getD 1, "(系統)")
  | none => (info.beta.getD 1, "(系統)")

/-- One dict appended to `results` (lines 169-179). -/
structure EnrichedPosition where
  ticker : String
  sector : String
  price : ℚ
  beta : ℚ
  betaSource : String
  shares : ℚ
  marketValue : ℚ
  riskExposure : ℚ
  plVal : ℚ
deriving DecidableEq, Repr

/-- Lines 145-180, the `try` body for one record that passed the filters:
fetch `info`, resolve a price, apply the beta policy, read the sector
(`info.get('sector', '其他')`), and emit a row iff the final `if price:` of
line 164 finds a truthy (non-`None`, non-zero) price.  A provider fault emits
nothing: the bare `except: pass` swallows it. -/
def enrichOne (provider : String → ProviderResult) (r : PositionRecord) :
    Option EnrichedPosition :=
  match provider (pyUpper r.ticker) with
  | .err => none
  | .ok info hist =>
    match resolvePrice info hist with
    | none => none
    | some price =>
      if price = 0 then none
      else
        let fb := finalBeta r.userBeta info
        some { ticker := pyUpper r.ticker
               sector := info.sector.getD "其他"
               price := price
               beta := fb.1
               betaSource := fb.2
               shares := r.shares
               marketValue := price * r.shares
               riskExposure := price * r.shares * fb.1
               plVal := (price - r.avgCost) * r.shares }

/-- Lines 136 and 143: a record is skipped (`continue`, before the progress
update) when its ticker cell is blank/whitespace/NaN or its shares are
`<= 0`. -/
def skipRecord (r : PositionRecord) : Bool :=
  isBlankStr r.ticker || decide (r.shares ≤ 0)

/-- The enrichment loop of lines 133-183.  `total` is `total_rows`, `cur` is
`current_progress`.  Returns the `results` list and the list of fractions
reported to the progress bar: `min(current_progress / total_rows, 1.0)` after
each record that was not skipped by a `continue`. -/
def fetchGo (provider : String → ProviderResult) (total : ℕ) :
    List PositionRecord → ℕ → List EnrichedPosition × List ℚ
  | [], _ => ([], [])
  | r :: rs, cur =>
    if skipRecord r then fetchGo provider total rs cur
    else
      let rest := fetchGo provider total rs (cur + 1)
      ((enrichOne provider r).toList ++ rest.1,
        min (((cur : ℚ) + 1) / (total : ℚ)) 1 :: rest.2)

/-- `fetch_risk_data` (lines 122-186) on the flattened row sequence: dropping
the empty frames of `df_list` changes neither the concatenation of the rows
nor `total_rows`, which is the length of the flattened sequence.  Returns
`(results, progress reports)`; an empty input returns immediately with no
results and no reports (line 128). -/
def fetch_risk_data (provider : String → ProviderResult)
    (rows : List PositionRecord) : List EnrichedPosition × List ℚ :=
  fetchGo provider rows.length rows 0

/-- One row of `grouped_df` (lines 220-229). -/
structure AggRow where
  ticker : String
  sector : String
  marketValue : ℚ
  riskExposure : ℚ
  plVal : ℚ
  shares : ℚ
  price : ℚ
  betaSource : String
  beta : ℚ
deriving DecidableEq, Repr

/-- The distinct elements of a list, keeping the first occurrence of each in
first-occurrence order: the group keys formed by `groupby`. -/
def firstKeys : List (String × String) → List (String × String)
  | [] => []
  | k :: ks => k :: (firstKeys ks).filter (fun x => decide (x ≠ k))

/-- The members of the group with key `k`, in input order
(pandas `groupby(['Ticker', 'Sector'])`). -/
def groupRows (k : String × String) (xs : List EnrichedPosition) :
    List EnrichedPosition :=
  xs.filter (fun e => decide (e.ticker = k.1 ∧ e.sector = k.2))

/-- The aggregate row for key `k`: `sum` for MarketValue, RiskExposure, PL_Val
and Shares, `first` for Price and BetaSource, and the recomputed
`Beta = RiskExposure / MarketValue` of line 229 (an unguarded division; ℚ has
total division with `x / 0 = 0` where pandas yields NaN or ±inf, so no theorem
below relies on the value of `beta` for a group with zero MarketValue). -/
def aggRow (xs : List EnrichedPosition) (k : String × String) : AggRow :=
  let g := groupRows k xs
  let mv := (g.map (fun e => e.marketValue)).sum
  let re := (g.map (fun e => e.riskExposure)).sum
  { ticker := k.1
    sector := k.2
    marketValue := mv
    riskExposure := re
    plVal := (g.map (fun e => e.plVal)).sum
    shares := (g.map (fun e => e.shares)).sum
    price := ((g.head?).map (fun e => e.price)).getD 0
    betaSource := ((g.head?).map (fun e => e.betaSource)).getD ""
    beta := re / mv }

/-- `grouped_df` (lines 220-229): one aggregate row per distinct
`(Ticker, Sector)` key of the input.  pandas lists groups in sorted-key order;
the claims below treat the rows as sets, so first-occurrence order is used. -/
def grouped_df (xs : List EnrichedPosition) : List AggRow :=
  (firstKeys (xs.map (fun e => (e.ticker, e.sector)))).map (aggRow xs)

/-- The summary scalars of lines 231-240. -/
structure PortfolioSummary where
  total_assets : ℚ
  total_risk_exposure : ℚ
  total_pl : ℚ
  initial_capital : ℚ
  total_pl_pct : ℚ
  portfolio_beta : ℚ
deriving DecidableEq, Repr

/-- Lines 231-240 applied to the rows of `grouped_df`:
`total_pl_pct = (total_pl / initial_capital) * 100 if initial_capital > 0 else 0`
and `portfolio_beta = total_risk_exposure / total_assets if total_assets > 0 else 0`. -/
def portfolioSummary (rows : List AggRow) : PortfolioSummary :=
  let ta := (rows.map (fun r => r.marketValue)).sum
  let tre := (rows.map (fun r => r.riskExposure)).sum
  let tpl := (rows.map (fun r => r.plVal)).sum
  let ic := ta - tpl
  { total_assets := ta
    total_risk_exposure := tre
    total_pl := tpl
    initial_capital := ic
    total_pl_pct := if 0 < ic then tpl / ic * 100 else 0
    portfolio_beta := if 0 < ta then tre / ta else 0 }

/-! ### Helper lemmas about grouping -/

theorem mem_firstKeys {k : String × String} {ks : List (String × String)} :
    k ∈ firstKeys ks ↔ k ∈ ks := by
  induction ks with
  | nil => simp [firstKeys]
  | cons a l ih =>
    simp only [firstKeys, List.mem_cons, List.mem_filter, decide_eq_true_eq, ih]
    constructor
    · rintro (rfl | ⟨h, _⟩)
      · exact Or.inl rfl
      · exact Or.inr h
    · rintro (rfl | h)
      · exact Or.inl rfl
      · by_cases hk : k = a
        · exact Or.inl hk
        · exact Or.inr ⟨h, hk⟩

theorem firstKeys_nodup (ks : List (String × String)) : (firstKeys ks).Nodup := by
  induction ks with
  | nil => simp [firstKeys]
  | cons a l ih =>
    refine List.Nodup.cons ?_ (List.Nodup.filter _ ih)
    intro hmem
    rcases List.mem_filter.1 hmem with ⟨-, hne⟩
    exact (of_decide_eq_true hne) rfl

theorem aggRow_ticker (xs : List EnrichedPosition) (k : String × String) :
    (aggRow xs k).ticker = k.1 := rfl

theorem aggRow_sector (xs : List EnrichedPosition) (k : String × String) :
    (aggRow xs k).sector = k.2 := rfl

theorem mem_grouped_df {xs : List EnrichedPosition} {r : AggRow}
    (h : r ∈ grouped_df xs) :
    r = aggRow xs (r.ticker, r.sector) ∧
      (r.ticker, r.sector) ∈ xs.map (fun e => (e.ticker, e.sector)) := by
  rcases List.mem_map.1 h with ⟨k, hk, rfl⟩
  refine ⟨by rw [aggRow_ticker, aggRow_sector], ?_⟩
  rw [aggRow_ticker, aggRow_sector]
  exact mem_firstKeys.1 hk

/-! ### C1: per-group beta is the market-value-weighted mean -/

/-- C1: for every aggregate row (i.e. every non-empty `(Ticker, Sector)` group
of enriched positions), `Beta` equals the group's summed RiskExposure divided
by its summed MarketValue; and when each contributing lot satisfies
`riskExposure = marketValue * beta` (as every enricher output does), this is
the market-value-weighted mean of the lots' betas. -/
theorem agg_beta_weighted (xs : List EnrichedPosition) (r : AggRow)
    (hr : r ∈ grouped_df xs) :
    r.beta =
        ((groupRows (r.ticker, r.sector) xs).map (fun e => e.riskExposure)).sum /
          ((groupRows (r.ticker, r.sector) xs).map (fun e => e.marketValue)).sum ∧
      ((∀ e ∈ groupRows (r.ticker, r.sector) xs,
          e.riskExposure = e.marketValue * e.beta) →
        r.beta =
          ((groupRows (r.ticker, r.sector) xs).map
              (fun e => e.marketValue * e.beta)).sum /
            ((groupRows (r.ticker, r.sector) xs).map (fun e => e.marketValue)).sum) := by
  obtain ⟨hreq, -⟩ := mem_grouped_df hr
  have hbeta : r.beta =
      ((groupRows (r.ticker, r.sector) xs).map (fun e => e.riskExposure)).sum /
        ((groupRows (r.ticker, r.sector) xs).map (fun e => e.marketValue)).sum := by
    conv_lhs => rw [hreq]
    rfl
  refine ⟨hbeta, fun hlots => ?_⟩
  rw [hbeta, List.map_congr_left hlots]

/-- First lot of the spec's weighted-beta example: value 100, beta 1. -/
def lotA175 : EnrichedPosition :=
  { ticker := "AAA", sector := "Tech", price := 10, beta := 1,
    betaSource := "(系統)", shares := 10, marketValue := 100,
    riskExposure := 100, plVal := 0 }

/-- Second lot of the spec's weighted-beta example: value 300, beta 2. -/
def lotB175 : EnrichedPosition :=
  { ticker := "AAA", sector := "Tech", price := 10, beta := 2,
    betaSource := "(自訂)", shares := 30, marketValue := 300,
    riskExposure := 600, plVal := 0 }

/-- The aggregate row produced from `lotA175` and `lotB175`. -/
def row175 : AggRow :=
  { ticker := "AAA", sector := "Tech", marketValue := 400, riskExposure := 700,
    plVal := 0, shares := 40, price := 10, betaSource := "(系統)", beta := 7/4 }

/-- Witness for C1 at the spec's concrete example: lots of value 100 with
beta 1 and value 300 with beta 2 aggregate to beta 7/4 = 1.75. -/
theorem agg_beta_weighted_witness :
    row175 ∈ grouped_df [lotA175, lotB175] ∧ row175.beta = 7/4 := by
  have hgd : grouped_df [lotA175, lotB175] = [row175] := by
    norm_num [grouped_df, firstKeys, groupRows, aggRow, lotA175, lotB175,
      row175, List.filter_cons, List.filter_nil]
  have hmem : row175 ∈ grouped_df [lotA175, lotB175] := by
    rw [hgd]; exact List.mem_singleton_self _
  have h := (agg_beta_weighted [lotA175, lotB175] row175 hmem).1
  refine ⟨hmem, ?_⟩
  rw [h]
  norm_num [groupRows, lotA175, lotB175, row175, List.filter_cons,
    List.filter_nil]

/-! ### C2: beta override policy -/

/-- C2: for every enriched record, a present user beta `> 0` is used exactly,
with source note `"(自訂)"` (OVERRIDE), regardless of the provider's beta;
otherwise the provider's beta is used, defaulting to `1` when the provider has
none, with source note `"(系統)"` (PROVIDER). -/
theorem beta_policy (pv : String → ProviderResult) (r : PositionRecord)
    (e : EnrichedPosition) (he : enrichOne pv r = some e) :
    (∀ b : ℚ, r.userBeta = some b → 0 < b →
        e.beta = b ∧ e.betaSource = "(自訂)") ∧
      ((r.userBeta = none ∨ ∃ b : ℚ, r.userBeta = some b ∧ b ≤ 0) →
        ∀ info hist, pv (pyUpper r.ticker) = ProviderResult.ok info hist →
          e.beta = info.beta.getD 1 ∧ e.betaSource = "(系統)") := by
  unfold enrichOne at he
  cases hpv : pv (pyUpper r.ticker) with
  | err => rw [hpv] at he; exact absurd he (by simp)
  | ok info hist =>
    rw [hpv] at he
    dsimp only at he
    cases hp : resolvePrice info hist with
    | none => rw [hp] at he; exact absurd he (by simp)
    | some price =>
      rw [hp] at he
      dsimp only at he
      by_cases hz : price = 0
      · rw [if_pos hz] at he; exact absurd he (by simp)
      · rw [if_neg hz] at he
        injection he with he
        subst he
        constructor
        · intro b hb hpos
          simp [finalBeta, hb, hpos]
        · rintro hub info2 hist2 hok
          injection hok with h1 h2
          subst h1; subst h2
          rcases hub with hnone | ⟨b, hb, hle⟩
          · simp [finalBeta, hnone]
          · simp [finalBeta, hb, not_lt.2 hle]

/-- Provider used by the C2 witness, override side. -/
def pvW : String → ProviderResult := fun _ =>
  ProviderResult.ok
    { currentPrice := some 10, previousClose := none, beta := some 3,
      sector := some "Tech" }
    { closes := [] }

/-- Record with a positive user override beta of 2. -/
def recW : PositionRecord :=
  { ticker := "msft", shares := 5, avgCost := 0, userBeta := some 2 }

/-- The enriched position produced from `recW` under `pvW`. -/
def eW : EnrichedPosition :=
  { ticker := "MSFT", sector := "Tech", price := 10, beta := 2,
    betaSource := "(自訂)", shares := 5, marketValue := 50,
    riskExposure := 100, plVal := 50 }

/-- Provider used by the C2 witness, fallback side: its beta is `None`. -/
def pvW2 : String → ProviderResult := fun _ =>
  ProviderResult.ok
    { currentPrice := some 8, previousClose := none, beta := none,
      sector := none }
    { closes := [] }

/-- Record with no user override. -/
def recW2 : PositionRecord :=
  { ticker := "AB", shares := 2, avgCost := 1, userBeta := none }

/-- The enriched position produced from `recW2` under `pvW2`: beta defaults
to 1 and the sector to the sentinel `"其他"`. -/
def eW2 : EnrichedPosition :=
  { ticker := "AB", sector := "其他", price := 8, beta := 1,
    betaSource := "(系統)", shares := 2, marketValue := 16,
    riskExposure := 16, plVal := 14 }

/-- Witness for C2: a user override of 2 beats a provider beta of 3, and with
no override and a provider beta of `None` the beta falls back to 1. -/
theorem beta_policy_witness :
    (eW.beta = 2 ∧ eW.betaSource = "(自訂)") ∧
      (eW2.beta = 1 ∧ eW2.betaSource = "(系統)") := by
  have hup : pyUpper "msft" = "MSFT" := by decide
  have hup2 : pyUpper "AB" = "AB" := by decide
  have he : enrichOne pvW recW = some eW := by
    norm_num [enrichOne, pvW, recW, eW, resolvePrice, pyOr, finalBeta, hup]
  have he2 : enrichOne pvW2 recW2 = some eW2 := by
    norm_num [enrichOne, pvW2, recW2, eW2, resolvePrice, pyOr, finalBeta, hup2]
  refine ⟨(beta_policy pvW recW eW he).1 2 rfl (by norm_num), ?_⟩
  exact (beta_policy pvW2 recW2 eW2 he2).2 (Or.inl rfl)
    { currentPrice := some 8, previousClose := none, beta := none,
      sector := none } { closes := [] } rfl

/-! ### C3: the aggregator has no market-value guard -/

/-- A degenerate enriched position whose market value is zero (the kind of
input the claimed guard is supposed to exclude). -/
def zeroLot : EnrichedPosition :=
  { ticker := "Z", sector := "S", price := 0, beta := 1, betaSource := "(系統)",
    shares := 0, marketValue := 0, riskExposure := 0, plVal := 0 }

/-- Counterexample to C3: `grouped_df` excludes nothing.  Feeding it one
position with market value 0 produces an aggregate row with market value 0,
so the claimed invariant "every produced row has `market_value > 0`" fails. -/
theorem no_group_exclusion_cex :
    ¬ (∀ r ∈ grouped_df [zeroLot], 0 < r.marketValue) := by
  intro h
  have hk : ("Z", "S") ∈ firstKeys ([zeroLot].map (fun e => (e.ticker, e.sector))) := by
    simp [firstKeys, zeroLot]
  have hmem : aggRow [zeroLot] ("Z", "S") ∈ grouped_df [zeroLot] :=
    List.mem_map_of_mem _ hk
  have hmv : (aggRow [zeroLot] ("Z", "S")).marketValue = 0 := by
    simp [aggRow, groupRows, zeroLot, List.filter_cons, List.filter_nil]
  have := h _ hmem
  rw [hmv] at this
  exact lt_irrefl 0 this

/-- C3 amended: the aggregator performs no exclusion at all.  Every input
position's `(ticker, sector)` key appears as an aggregate row of the output,
including keys whose group sums to a market value `<= 0`; the division of
line 229 is simply executed unguarded on such groups. -/
theorem groups_not_excluded (xs : List EnrichedPosition) (e : EnrichedPosition)
    (he : e ∈ xs) :
    ∃ r ∈ grouped_df xs, r.ticker = e.ticker ∧ r.sector = e.sector := by
  refine ⟨aggRow xs (e.ticker, e.sector), ?_, rfl, rfl⟩
  exact List.mem_map_of_mem _ (mem_firstKeys.2 (List.mem_map_of_mem _ he))

/-- Witness for the amended C3 at the concrete zero-market-value input. -/
theorem groups_not_excluded_witness :
    ∃ r ∈ grouped_df [zeroLot], r.ticker = "Z" ∧ r.sector = "S" :=
  groups_not_excluded [zeroLot] zeroLot (List.mem_singleton_self _)

/-! ### C4: aggregation and permutation of the input -/

/-- First lot of a duplicated ticker: user-overridden beta, price 10. -/
def pFirst : EnrichedPosition :=
  { ticker := "P", sector := "S", price := 10, beta := 1,
    betaSource := "(自訂)", shares := 1, marketValue := 10,
    riskExposure := 10, plVal := 0 }

/-- Second lot of the same ticker: provider beta, price 20. -/
def pSecond : EnrichedPosition :=
  { ticker := "P", sector := "S", price := 20, beta := 1,
    betaSource := "(系統)", shares := 1, marketValue := 20,
    riskExposure := 20, plVal := 0 }

/-- The aggregate row obtained when `pFirst` comes first: its carried Price
and BetaSource are `pFirst`'s. -/
def rowPF : AggRow :=
  { ticker := "P", sector := "S", marketValue := 30, riskExposure := 30,
    plVal := 0, shares := 2, price := 10, betaSource := "(自訂)", beta := 1 }

/-- Counterexample to C4: the two orders of the same two lots are a
permutation of each other, yet the aggregate row sets differ, because the
carried Price and BetaSource come from `first` in encounter order. -/
theorem agg_perm_cex :
    [pFirst, pSecond].Perm [pSecond, pFirst] ∧
      rowPF ∈ grouped_df [pFirst, pSecond] ∧
        rowPF ∉ grouped_df [pSecond, pFirst] := by
  refine ⟨List.Perm.swap _ _ _, ?_, ?_⟩
  · have h : grouped_df [pFirst, pSecond] = [rowPF] := by
      norm_num [grouped_df, firstKeys, groupRows, aggRow, pFirst, pSecond,
        rowPF, List.filter_cons, List.filter_nil]
    rw [h]; exact List.mem_singleton_self _
  · have h : grouped_df [pSecond, pFirst] =
        [{ ticker := "P", sector := "S", marketValue := 30, riskExposure := 30,
           plVal := 0, shares := 2, price := 20, betaSource := "(系統)",
           beta := 1 }] := by
      norm_num [grouped_df, firstKeys, groupRows, aggRow, pFirst, pSecond,
        List.filter_cons, List.filter_nil]
    rw [h]
    intro hmem
    rcases List.mem_singleton.1 hmem with heq
    exact absurd (congrArg AggRow.price heq) (by norm_num [rowPF])

/-- The fields of an aggregate row that do not depend on encounter order:
everything except the carried Price and BetaSource. -/
structure AggCore where
  ticker : String
  sector : String
  marketValue : ℚ
  riskExposure : ℚ
  plVal : ℚ
  shares : ℚ
  beta : ℚ
deriving DecidableEq, Repr

/-- Forget the order-dependent carried fields of an aggregate row. -/
def stripCarried (r : AggRow) : AggCore :=
  { ticker := r.ticker, sector := r.sector, marketValue := r.marketValue,
    riskExposure := r.riskExposure, plVal := r.plVal, shares := r.shares,
    beta := r.beta }

theorem stripCarried_aggRow_perm {xs ys : List EnrichedPosition}
    (hp : xs.Perm ys) (k : String × String) :
    stripCarried (aggRow xs k) = stripCarried (aggRow ys k) := by
  have hg : (groupRows k xs).Perm (groupRows k ys) := hp.filter _
  have hmv := (hg.map (fun e => e.marketValue)).sum_eq
  have hre := (hg.map (fun e => e.riskExposure)).sum_eq
  have hpl := (hg.map (fun e => e.plVal)).sum_eq
  have hsh := (hg.map (fun e => e.shares)).sum_eq
  simp [stripCarried, aggRow, hmv, hre, hpl, hsh]

/-- C4 amended: permuting the input sequence of enriched positions yields the
same aggregate rows as sets in every field except the carried Price and
BetaSource (which are taken from the first group member in encounter order,
and so can change under permutation), and an identical portfolio summary. -/
theorem agg_perm_invariant (xs ys : List EnrichedPosition) (hp : xs.Perm ys) :
    ((grouped_df xs).map stripCarried).Perm ((grouped_df ys).map stripCarried) ∧
      portfolioSummary (grouped_df xs) = portfolioSummary (grouped_df ys) := by
  have hkeys : (firstKeys (xs.map (fun e => (e.ticker, e.sector)))).Perm
      (firstKeys (ys.map (fun e => (e.ticker, e.sector)))) := by
    rw [List.perm_ext_iff_of_nodup (firstKeys_nodup _) (firstKeys_nodup _)]
    intro a
    rw [mem_firstKeys, mem_firstKeys]
    exact (hp.map (fun e => (e.ticker, e.sector))).mem_iff
  have hrows : ((grouped_df xs).map stripCarried).Perm
      ((grouped_df ys).map stripCarried) := by
    have h1 : (grouped_df xs).map stripCarried =
        (firstKeys (xs.map (fun e => (e.ticker, e.sector)))).map
          (fun k => stripCarried (aggRow ys k)) := by
      rw [grouped_df, List.map_map]
      exact List.map_congr_left (fun k _ => stripCarried_aggRow_perm hp k)
    have h2 : (grouped_df ys).map stripCarried =
        (firstKeys (ys.map (fun e => (e.ticker, e.sector)))).map
          (fun k => stripCarried (aggRow ys k)) := by
      rw [grouped_df, List.map_map]
      rfl
    rw [h1, h2]
    exact hkeys.map _
  refine ⟨hrows, ?_⟩
  have hmv := (hrows.map (fun c => c.marketValue)).sum_eq
  have hre := (hrows.map (fun c => c.riskExposure)).sum_eq
  have hpl := (hrows.map (fun c => c.plVal)).sum_eq
  simp only [List.map_map, Function.comp_def, stripCarried] at hmv hre hpl
  simp [portfolioSummary, hmv, hre, hpl]

/-- Witness for the amended C4 at the concrete two-lot input. -/
theorem agg_perm_invariant_witness :
    portfolioSummary (grouped_df [pFirst, pSecond]) =
      portfolioSummary (grouped_df [pSecond, pFirst]) :=
  (agg_perm_invariant [pFirst, pSecond] [pSecond, pFirst]
    (List.Perm.swap _ _ _)).2

/-! ### C5: progress reporting -/

/-- A provider whose answers never matter for the record at hand. -/
def pvSkip : String → ProviderResult := fun _ => ProviderResult.err

/-- A record whose ticker cell is blank (whitespace only). -/
def recBlank : PositionRecord :=
  { ticker := " ", shares := 1, avgCost := 0, userBeta := none }

/-- Counterexample to C5: on the one-record input `[recBlank]` the progress
observer is never invoked, because the blank-ticker `continue` of line 136
jumps over the progress update of lines 182-183, whereas the claim requires
one invocation reporting 1/1 = 1 after that record. -/
theorem progress_skip_cex :
    (fetch_risk_data pvSkip [recBlank]).2 = [] ∧
      ([recBlank] : List PositionRecord).length = 1 := by
  constructor
  · simp [fetch_risk_data, fetchGo, skipRecord, isBlankStr, recBlank]
  · rfl

theorem fetchGo_progress (pv : String → ProviderResult) (total : ℕ)
    (rows : List PositionRecord) (cur : ℕ) :
    (fetchGo pv total rows cur).2 =
      (List.range (rows.filter (fun x => !skipRecord x)).length).map
        (fun i : ℕ => min (((cur : ℚ) + (i : ℚ) + 1) / (total : ℚ)) 1) := by
  induction rows generalizing cur with
  | nil => simp [fetchGo]
  | cons r rs ih =>
    cases hsk : skipRecord r with
    | true =>
      have h1 : fetchGo pv total (r :: rs) cur = fetchGo pv total rs cur := by
        simp [fetchGo, hsk]
      have hf : List.filter (fun x => !skipRecord x) (r :: rs) =
          List.filter (fun x => !skipRecord x) rs := by
        simp [List.filter_cons, hsk]
      rw [h1, hf]
      exact ih cur
    | false =>
      have h1 : (fetchGo pv total (r :: rs) cur).2 =
          min (((cur : ℚ) + 1) / (total : ℚ)) 1 ::
            (fetchGo pv total rs (cur + 1)).2 := by
        simp [fetchGo, hsk]
      have hf : List.filter (fun x => !skipRecord x) (r :: rs) =
          r :: List.filter (fun x => !skipRecord x) rs := by
        simp [List.filter_cons, hsk]
      rw [h1, ih (cur + 1), hf, List.length_cons, List.range_succ_eq_map,
        List.map_cons, List.map_map, List.cons.injEq]
      refine ⟨by norm_num, ?_⟩
      apply List.map_congr_left
      intro i hi
      simp only [Function.comp_apply]
      congr 1
      push_cast
      ring

/-- C5 amended: the observer is invoked exactly once after each record that
passes the blank-ticker and positive-shares filters — including records whose
fetch failed — and never after a skipped record; the i-th invocation (from
i = 1) reports `min(i / n, 1)` with `n` the total record count.  Hence the
invocation count is the number of unskipped records `k`, and the final
reported fraction is `k / n`, which is 1 only when no record was skipped. -/
theorem progress_reports (pv : String → ProviderResult)
    (rows : List PositionRecord) :
    (fetch_risk_data pv rows).2 =
      (List.range (rows.filter (fun x => !skipRecord x)).length).map
        (fun i : ℕ => min (((i : ℚ) + 1) / (rows.length : ℚ)) 1) := by
  rw [fetch_risk_data, fetchGo_progress]
  apply List.map_congr_left
  intro i hi
  norm_num

/-! ### C6: blank-ticker / non-positive-shares records are excluded -/

theorem fetchGo_results_const (pv : String → ProviderResult) (t1 t2 : ℕ)
    (rows : List PositionRecord) (c1 c2 : ℕ) :
    (fetchGo pv t1 rows c1).1 = (fetchGo pv t2 rows c2).1 := by
  induction rows generalizing c1 c2 with
  | nil => rfl
  | cons r rs ih =>
    cases hsk : skipRecord r with
    | true => simp [fetchGo, hsk, ih c1 c2]
    | false => simp [fetchGo, hsk, ih (c1 + 1) (c2 + 1)]

theorem fetchGo_results_length_le (pv : String → ProviderResult) (t : ℕ)
    (rows : List PositionRecord) (cur : ℕ) :
    (fetchGo pv t rows cur).1.length ≤
      (rows.filter (fun x => !skipRecord x)).length := by
  induction rows generalizing cur with
  | nil => simp [fetchGo]
  | cons r rs ih =>
    cases hsk : skipRecord r with
    | true =>
      have h1 : fetchGo pv t (r :: rs) cur = fetchGo pv t rs cur := by
        simp [fetchGo, hsk]
      rw [h1, List.filter_cons]
      simp only [hsk, Bool.not_false, if_neg]
      simpa using ih cur
    | false =>
      have h1 : (fetchGo pv t (r :: rs) cur).1 =
          (enrichOne pv r).toList ++ (fetchGo pv t rs (cur + 1)).1 := by
        simp [fetchGo, hsk]
      rw [h1, List.filter_cons]
      simp only [hsk, Bool.not_false, if_pos, List.length_append,
        List.length_cons]
      have htl : (enrichOne pv r).toList.length ≤ 1 := by
        cases enrichOne pv r <;> simp
      calc (enrichOne pv r).toList.length + (fetchGo pv t rs (cur + 1)).1.length
          ≤ 1 + (List.filter (fun x => !skipRecord x) rs).length :=
            Nat.add_le_add htl (ih (cur + 1))
        _ = (List.filter (fun x => !skipRecord x) rs).length + 1 :=
            Nat.add_comm _ _

/-- C6: a record with a blank/whitespace-only ticker or with shares `<= 0`
contributes no enriched position — dropping it leaves the results unchanged —
and the number of enriched positions emitted is at most the number of input
records with a non-blank ticker and positive shares. -/
theorem skipped_records_excluded (pv : String → ProviderResult)
    (r : PositionRecord) (rows : List PositionRecord)
    (h : isBlankStr r.ticker = true ∨ r.shares ≤ 0) :
    (fetch_risk_data pv (r :: rows)).1 = (fetch_risk_data pv rows).1 ∧
      ∀ rs : List PositionRecord,
        (fetch_risk_data pv rs).1.length ≤
          (rs.filter (fun x => !skipRecord x)).length := by
  constructor
  · have hsk : skipRecord r = true := by
      rcases h with h1 | h1
      · simp [skipRecord, h1]
      · simp [skipRecord, h1]
    have h1 : fetchGo pv (r :: rows).length (r :: rows) 0 =
        fetchGo pv (r :: rows).length rows 0 := by
      simp [fetchGo, hsk]
    rw [fetch_risk_data, fetch_risk_data, h1]
    exact fetchGo_results_const pv _ _ rows 0 0
  · intro rs
    exact fetchGo_results_length_le pv rs.length rs 0

/-- Witness for C6 at the concrete blank-ticker record. -/
theorem skipped_records_excluded_witness :
    (fetch_risk_data pvSkip [recBlank]).1 = (fetch_risk_data pvSkip []).1 ∧
      (fetch_risk_data pvSkip [recBlank]).1.length ≤
        (([recBlank] : List PositionRecord).filter
          (fun x => !skipRecord x)).length := by
  have h := skipped_records_excluded pvSkip recBlank [] (Or.inl (by decide))
  exact ⟨h.1, h.2 [recBlank]⟩

/-! ### C7: provider faults are isolated per record -/

/-- C7: a provider fault while processing one record is absorbed inside the
enricher: that record contributes no enriched position and the remaining
records produce exactly the results they would produce without it.  In this
embedding the enricher is a total function, so no exception can cross its
boundary; the `try/except: pass` of lines 145-180 is modelled by
`ProviderResult.err` yielding no row. -/
theorem provider_fault_isolated (pv : String → ProviderResult)
    (r : PositionRecord) (rows : List PositionRecord)
    (h : pv (pyUpper r.ticker) = ProviderResult.err) :
    (fetch_risk_data pv (r :: rows)).1 = (fetch_risk_data pv rows).1 := by
  cases hsk : skipRecord r with
  | true =>
    have h1 : fetchGo pv (r :: rows).length (r :: rows) 0 =
        fetchGo pv (r :: rows).length rows 0 := by
      simp [fetchGo, hsk]
    rw [fetch_risk_data, fetch_risk_data, h1]
    exact fetchGo_results_const pv _ _ rows 0 0
  | false =>
    have hnone : enrichOne pv r = none := by
      simp [enrichOne, h]
    have h1 : (fetchGo pv (r :: rows).length (r :: rows) 0).1 =
        (fetchGo pv (r :: rows).length rows 1).1 := by
      simp [fetchGo, hsk, hnone]
    rw [fetch_risk_data, fetch_risk_data, h1]
    exact fetchGo_results_const pv _ _ rows 1 0

/-- A provider that fails on ticker `"BAD"` and succeeds elsewhere. -/
def pvMixed : String → ProviderResult := fun t =>
  if t = "BAD" then ProviderResult.err
  else
    ProviderResult.ok
      { currentPrice := some 10, previousClose := none, beta := some 1,
        sector := some "Tech" }
      { closes := [] }

/-- The failing record. -/
def recBad : PositionRecord :=
  { ticker := "BAD", shares := 1, avgCost := 0, userBeta := none }

/-- A record whose lookup succeeds. -/
def recGood : PositionRecord :=
  { ticker := "OK", shares := 1, avgCost := 0, userBeta := none }

/-- Witness for C7: with the faulty record present, the results equal those of
the remaining input alone. -/
theorem provider_fault_isolated_witness :
    (fetch_risk_data pvMixed [recBad, recGood]).1 =
      (fetch_risk_data pvMixed [recGood]).1 :=
  provider_fault_isolated pvMixed recBad [recGood] (by decide)

/-! ### C8: the portfolio summary scalars -/

/-- C8: the summary totals are the sums over the aggregate rows;
`initial_capital = total_assets - total_pl`; `total_pl_pct` is
`total_pl / initial_capital * 100` when `initial_capital > 0` and `0` when
`initial_capital <= 0`; `portfolio_beta` is
`total_risk_exposure / total_assets` when `total_assets > 0` and `0` when
`total_assets = 0`; and on an empty row set every metric is 0, with no
division performed. -/
theorem portfolio_summary_spec (rows : List AggRow) :
    (portfolioSummary rows).total_assets =
        (rows.map (fun r => r.marketValue)).sum ∧
      (portfolioSummary rows).total_risk_exposure =
        (rows.map (fun r => r.riskExposure)).sum ∧
      (portfolioSummary rows).total_pl = (rows.map (fun r => r.plVal)).sum ∧
      (portfolioSummary rows).initial_capital =
        (portfolioSummary rows).total_assets -
          (portfolioSummary rows).total_pl ∧
      (0 < (portfolioSummary rows).initial_capital →
        (portfolioSummary rows).total_pl_pct =
          (portfolioSummary rows).total_pl /
            (portfolioSummary rows).initial_capital * 100) ∧
      ((portfolioSummary rows).initial_capital ≤ 0 →
        (portfolioSummary rows).total_pl_pct = 0) ∧
      (0 < (portfolioSummary rows).total_assets →
        (portfolioSummary rows).portfolio_beta =
          (portfolioSummary rows).total_risk_exposure /
            (portfolioSummary rows).total_assets) ∧
      ((portfolioSummary rows).total_assets = 0 →
        (portfolioSummary rows).portfolio_beta = 0) ∧
      portfolioSummary ([] : List AggRow) =
        { total_assets := 0, total_risk_exposure := 0, total_pl := 0,
          initial_capital := 0, total_pl_pct := 0, portfolio_beta := 0 } := by
  refine ⟨rfl, rfl, rfl, rfl, fun h => ?_, fun h => ?_, fun h => ?_,
    fun h => ?_, ?_⟩
  · exact if_pos h
  · exact if_neg (not_lt.2 h)
  · exact if_pos h
  · have h2 : (rows.map (fun r => r.marketValue)).sum = 0 := h
    exact if_neg (by rw [h2]; exact lt_irrefl 0)
  · simp [portfolioSummary]

/-- A concrete aggregate row for the C8 witness. -/
def rowW : AggRow :=
  { ticker := "W", sector := "S", marketValue := 150, riskExposure := 300,
    plVal := 50, shares := 1, price := 150, betaSource := "(系統)", beta := 2 }

/-- Witness for C8: on `[rowW]` the summary evaluates to
`total_pl_pct = 50` and `portfolio_beta = 2`, and on `[]` all metrics are 0. -/
theorem portfolio_summary_spec_witness :
    (portfolioSummary [rowW]).total_pl_pct = 50 ∧
      (portfolioSummary [rowW]).portfolio_beta = 2 ∧
      (portfolioSummary ([] : List AggRow)).portfolio_beta = 0 := by
  obtain ⟨h1, h2, h3, h4, h5, h6, h7, h8, h9⟩ := portfolio_summary_spec [rowW]
  have hic : 0 < (portfolioSummary [rowW]).initial_capital := by
    norm_num [portfolioSummary, rowW]
  have hta : 0 < (portfolioSummary [rowW]).total_assets := by
    norm_num [portfolioSummary, rowW]
  refine ⟨?_, ?_, ?_⟩
  · rw [h5 hic, h3, h4, h1, h3]
    norm_num [rowW]
  · rw [h7 hta, h2, h1]
    norm_num [rowW]
  · rw [h9]

/-! ### C9: the price fallback chain -/

/-- Provider for the fallback counterexamples: no live price, a previous
close of 0, and an available daily close of 5 in the one-day history. -/
def pvZeroPrev : String → ProviderResult := fun _ =>
  ProviderResult.ok
    { currentPrice := none, previousClose := some 0, beta := none,
      sector := none }
    { closes := [5] }

/-- The record looked up under `pvZeroPrev` for the C9 counterexample. -/
def recFall : PositionRecord :=
  { ticker := "F", shares := 1, avgCost := 0, userBeta := none }

/-- Counterexample to C9: with no live price, a previous close of `0` and a
daily close of 5 available in the history, the record is dropped: the
daily-close fallback is never consulted because a resolved price of `0` is
not `None` at line 150.  Not all three fallbacks failed, yet the record is
dropped, contradicting "only when all three fallbacks fail is the record
dropped". -/
theorem price_fallback_cex :
    (fetch_risk_data pvZeroPrev [recFall]).1 = [] ∧
      ({ closes := [5] } : HistData).closes.getLast? = some 5 := by
  constructor
  · have hsk : skipRecord recFall = false := by decide
    have hen : enrichOne pvZeroPrev recFall = none := by
      simp [enrichOne, pvZeroPrev, resolvePrice, pyOr]
    simp [fetch_risk_data, fetchGo, hsk, hen]
  · rfl

/-- C9 amended: the price resolution of lines 149-152 behaves as follows: a
non-`None`, non-zero `currentPrice` is used; when `currentPrice` is `None` or
`0`, a non-`None` `previousClose` is used even when it is `0`; the most
recent daily close is consulted only when `currentPrice or previousClose` is
`None`; and the record is dropped (no enriched position) iff the resolved
price is `None` or `0` — so a present `previousClose` of `0` leads to a drop
without the history being consulted. -/
theorem price_fallback_amended (info : ProviderInfo) (hist : HistData) :
    (∀ p : ℚ, info.currentPrice = some p → p ≠ 0 →
        resolvePrice info hist = some p) ∧
      ((info.currentPrice = none ∨ info.currentPrice = some 0) →
        ∀ q : ℚ, info.previousClose = some q →
          resolvePrice info hist = some q) ∧
      ((info.currentPrice = none ∨ info.currentPrice = some 0) →
        info.previousClose = none →
        resolvePrice info hist = hist.closes.getLast?) ∧
      ∀ (pv : String → ProviderResult) (r : PositionRecord),
        pv (pyUpper r.ticker) = ProviderResult.ok info hist →
          (enrichOne pv r = none ↔
            (resolvePrice info hist = none ∨
              resolvePrice info hist = some 0)) := by
  refine ⟨?_, ?_, ?_, ?_⟩
  · intro p hp hne
    simp [resolvePrice, pyOr, hp, hne]
  · rintro (hc | hc) q hq <;> simp [resolvePrice, pyOr, hc, hq]
  · rintro (hc | hc) hq <;> simp [resolvePrice, pyOr, hc, hq]
  · intro pv r hpv
    unfold enrichOne
    rw [hpv]
    dsimp only
    cases hrp : resolvePrice info hist with
    | none => simp
    | some p =>
      dsimp only
      by_cases hz : p = 0
      · simp [hz]
      · simp [hz]

/-- Witness for the amended C9 at the counterexample scenario: the previous
close of 0 is the resolved price, and the record is dropped. -/
theorem price_fallback_amended_witness :
    resolvePrice
        { currentPrice := none, previousClose := some 0, beta := none,
          sector := none } { closes := [5] } = some 0 ∧
      enrichOne pvZeroPrev recFall = none := by
  have h := price_fallback_amended
    { currentPrice := none, previousClose := some 0, beta := none,
      sector := none } { closes := [5] }
  have h2 := h.2.1 (Or.inl rfl) 0 rfl
  exact ⟨h2, (h.2.2.2 pvZeroPrev recFall rfl).2 (Or.inr h2)⟩

/-! ### C10: emitted prices are nonzero; groups have nonzero market value -/

/-- The price that lines 149-152 resolve from one provider response
(`none` for a faulted lookup). -/
def priceOf : ProviderResult → Option ℚ
  | ProviderResult.ok info hist => resolvePrice info hist
  | ProviderResult.err => none

theorem enrichOne_some (pv : String → ProviderResult) (r : PositionRecord)
    (e : EnrichedPosition) (h : enrichOne pv r = some e) :
    e.ticker = pyUpper r.ticker ∧ e.shares = r.shares ∧
      e.marketValue = e.price * e.shares ∧ e.price ≠ 0 ∧
      priceOf (pv e.ticker) = some e.price := by
  unfold enrichOne at h
  cases hpv : pv (pyUpper r.ticker) with
  | err => rw [hpv] at h; exact absurd h (by simp)
  | ok info hist =>
    rw [hpv] at h
    dsimp only at h
    cases hrp : resolvePrice info hist with
    | none => rw [hrp] at h; exact absurd h (by simp)
    | some p =>
      rw [hrp] at h
      dsimp only at h
      by_cases hz : p = 0
      · rw [if_pos hz] at h; exact absurd h (by simp)
      · rw [if_neg hz] at h
        injection h with h
        subst h
        refine ⟨rfl, rfl, rfl, hz, ?_⟩
        show priceOf (pv (pyUpper r.ticker)) = some p
        rw [hpv]
        exact hrp

theorem mem_fetchGo_results (pv : String → ProviderResult) (t : ℕ)
    (rows : List PositionRecord) (cur : ℕ) (e : EnrichedPosition)
    (he : e ∈ (fetchGo pv t rows cur).1) :
    ∃ r ∈ rows, skipRecord r = false ∧ enrichOne pv r = some e := by
  induction rows generalizing cur with
  | nil => simp [fetchGo] at he
  | cons r rs ih =>
    cases hsk : skipRecord r with
    | true =>
      rw [show fetchGo pv t (r :: rs) cur = fetchGo pv t rs cur from by
        simp [fetchGo, hsk]] at he
      obtain ⟨r2, hr2, hsk2, hen⟩ := ih cur he
      exact ⟨r2, List.mem_cons_of_mem _ hr2, hsk2, hen⟩
    | false =>
      rw [show (fetchGo pv t (r :: rs) cur).1 =
          (enrichOne pv r).toList ++ (fetchGo pv t rs (cur + 1)).1 from by
        simp [fetchGo, hsk]] at he
      rcases List.mem_append.1 he with h1 | h1
      · refine ⟨r, List.mem_cons_self _ _, hsk, ?_⟩
        cases hen : enrichOne pv r with
        | none => rw [hen] at h1; simp at h1
        | some e2 =>
          rw [hen] at h1
          simp at h1
          rw [h1]
      · obtain ⟨r2, hr2, hsk2, hen⟩ := ih (cur + 1) h1
        exact ⟨r2, List.mem_cons_of_mem _ hr2, hsk2, hen⟩

theorem skipRecord_false_shares {r : PositionRecord}
    (h : skipRecord r = false) : 0 < r.shares := by
  simp [skipRecord] at h
  exact h.2

/-- Record for the C10 counterexample. -/
def recG : PositionRecord :=
  { ticker := "G", shares := 1, avgCost := 0, userBeta := none }

/-- Counterexample to C10: a `previousClose` equal to 0 is NOT treated as
unresolved — with no live price, a previous close of 0 and a daily close of 5
available, the resolved price is `some 0` rather than the history's 5, and
the record is dropped instead of being emitted with price 5. -/
theorem zero_prev_close_cex :
    resolvePrice
        { currentPrice := none, previousClose := some 0, beta := none,
          sector := none } { closes := [5] } = some 0 ∧
      ({ closes := [5] } : HistData).closes.getLast? = some 5 ∧
      (5 : ℚ) ≠ 0 ∧
      enrichOne pvZeroPrev recG = none := by
  refine ⟨by simp [resolvePrice, pyOr], rfl, by norm_num, ?_⟩
  simp [enrichOne, pvZeroPrev, resolvePrice, pyOr]

/-- C10 amended: every emitted enriched position has a nonzero price (a
record whose resolved price is `None` or `0` is dropped), positive shares,
and `marketValue = price * shares`; a `currentPrice` of `0` falls through to
`previousClose` exactly as if it were `None` — but a `previousClose` of `0`
does not fall through to the history (see the counterexample); and every
aggregate row grouped from enricher output has nonzero market value, because
all members of a group carry the one resolved price of their ticker. -/
theorem emitted_price_nonzero (pv : String → ProviderResult)
    (rows : List PositionRecord) :
    (∀ e ∈ (fetch_risk_data pv rows).1,
        e.price ≠ 0 ∧ 0 < e.shares ∧ e.marketValue = e.price * e.shares ∧
          priceOf (pv e.ticker) = some e.price) ∧
      (∀ (info : ProviderInfo) (hist : HistData),
        info.currentPrice = some 0 →
          resolvePrice info hist =
            resolvePrice { info with currentPrice := none } hist) ∧
      ∀ r ∈ grouped_df (fetch_risk_data pv rows).1, r.marketValue ≠ 0 := by
  have hmem : ∀ e ∈ (fetch_risk_data pv rows).1,
      e.price ≠ 0 ∧ 0 < e.shares ∧ e.marketValue = e.price * e.shares ∧
        priceOf (pv e.ticker) = some e.price := by
    intro e he
    obtain ⟨r, hr, hsk, hen⟩ := mem_fetchGo_results pv _ rows 0 e he
    obtain ⟨ht, hsh, hmv, hpz, hpo⟩ := enrichOne_some pv r e hen
    refine ⟨hpz, ?_, hmv, hpo⟩
    rw [hsh]
    exact skipRecord_false_shares hsk
  refine ⟨hmem, ?_, ?_⟩
  · intro info hist hc
    simp [resolvePrice, pyOr, hc]
  · intro row hrow
    obtain ⟨hreq, hkmem⟩ := mem_grouped_df hrow
    obtain ⟨e0, he0mem, he0key⟩ := List.mem_map.1 hkmem
    have he0t : e0.ticker = row.ticker := congrArg Prod.fst he0key
    have he0s : e0.sector = row.sector := congrArg Prod.snd he0key
    have he0g : e0 ∈ groupRows (row.ticker, row.sector)
        (fetch_risk_data pv rows).1 := by
      rw [groupRows, List.mem_filter]
      exact ⟨he0mem, decide_eq_true ⟨he0t, he0s⟩⟩
    obtain ⟨hpz0, hsh0, hmv0, hpo0⟩ := hmem e0 he0mem
    have hprice : ∀ e ∈ groupRows (row.ticker, row.sector)
        (fetch_risk_data pv rows).1, e.price = e0.price ∧ 0 < e.shares := by
      intro e heg
      have hein : e ∈ (fetch_risk_data pv rows).1 :=
        List.mem_of_mem_filter heg
      obtain ⟨hpz, hsh, hmv, hpo⟩ := hmem e hein
      have hkey := of_decide_eq_true (List.mem_filter.1 heg).2
      have htk : e.ticker = e0.ticker := by rw [hkey.1, he0t]
      rw [htk] at hpo
      rw [hpo0] at hpo
      exact ⟨(Option.some.inj hpo).symm, hsh⟩
    have hrowmv : row.marketValue =
        ((groupRows (row.ticker, row.sector)
          (fetch_risk_data pv rows).1).map (fun e => e.marketValue)).sum := by
      conv_lhs => rw [hreq]
      rfl
    have hmapeq : (groupRows (row.ticker, row.sector)
        (fetch_risk_data pv rows).1).map (fun e => e.marketValue) =
          (groupRows (row.ticker, row.sector)
            (fetch_risk_data pv rows).1).map (fun e => e0.price * e.shares) := by
      apply List.map_congr_left
      intro e heg
      obtain ⟨hp, hs⟩ := hprice e heg
      obtain ⟨_, _, hmv, _⟩ := hmem e (List.mem_of_mem_filter heg)
      rw [hmv, hp]
    have hshpos : 0 < ((groupRows (row.ticker, row.sector)
        (fetch_risk_data pv rows).1).map (fun e => e.shares)).sum := by
      apply List.sum_pos
      · intro x hx
        obtain ⟨e, heg, heq⟩ := List.mem_map.1 hx
        rw [← heq]
        exact (hprice e heg).2
      · exact List.ne_nil_of_mem (List.mem_map_of_mem _ he0g)
    rw [hrowmv, hmapeq, List.sum_map_mul_left]
    exact mul_ne_zero hpz0 (ne_of_gt hshpos)

/-- The enriched position produced from `recGood` under `pvMixed`. -/
def eOK : EnrichedPosition :=
  { ticker := "OK", sector := "Tech", price := 10, beta := 1,
    betaSource := "(系統)", shares := 1, marketValue := 10,
    riskExposure := 10, plVal := 10 }

/-- The aggregate row grouped from `eOK` alone. -/
def rowOK : AggRow :=
  { ticker := "OK", sector := "Tech", marketValue := 10, riskExposure := 10,
    plVal := 10, shares := 1, price := 10, betaSource := "(系統)", beta := 1 }

/-- Witness for the amended C10: the concrete one-record portfolio yields one
aggregate row, and its market value is nonzero. -/
theorem emitted_price_nonzero_witness :
    rowOK ∈ grouped_df (fetch_risk_data pvMixed [recGood]).1 ∧
      rowOK.marketValue ≠ 0 := by
  have hup : pyUpper "OK" = "OK" := by decide
  have hsk : skipRecord
      { ticker := "OK", shares := 1, avgCost := 0, userBeta := none } =
        false := by decide
  have hpm : pvMixed "OK" = ProviderResult.ok
      { currentPrice := some 10, previousClose := none, beta := some 1,
        sector := some "Tech" } { closes := [] } := by
    simp [pvMixed]
  have hres : (fetch_risk_data pvMixed [recGood]).1 = [eOK] := by
    norm_num [fetch_risk_data, fetchGo, hsk, enrichOne, hup, hpm, recGood,
      resolvePrice, pyOr, finalBeta, eOK]
  have hrow : grouped_df [eOK] = [rowOK] := by
    norm_num [grouped_df, firstKeys, groupRows, aggRow, eOK, rowOK,
      List.filter_cons, List.filter_nil]
  have hmem : rowOK ∈ grouped_df (fetch_risk_data pvMixed [recGood]).1 := by
    rw [hres, hrow]
    exact List.mem_singleton_self _
  exact ⟨hmem, (emitted_price_nonzero pvMixed [recGood]).2.2 rowOK hmem⟩
